import Mathlib

/-!
Shallow embedding of the dual-graph maintenance engine of
`src/nepiada/utils/graphs.py` (class `Graph`): construction,
`_update_obs_graph`, `_update_comm_graph`, `update_graphs`, `reset_graphs`.

Modelling choices:
* Agent identifiers are natural numbers; a Python dict of agents is an
  insertion-ordered association list, mirroring dict iteration order.
  An agent object is abstracted to its `p_pos` field (an integer pair),
  the only field the graph logic reads.
* The float comparison `np.sqrt(dx**2 + dy**2) < r` is embedded with exact
  real-number semantics over rational radii: for integer coordinates,
  `sqrt d < r` holds iff `0 < r` and `d < r ^ 2`, where `d` is the integer
  squared distance.  Likewise Python's stable `sort(key = fun x => x[0])`
  on `(distance, name)` pairs is embedded as Mathlib's stable
  `List.insertionSort` ordered by the squared distance (the square root is
  strictly monotone, so it induces the same order and the same ties).
* Rendering state (screen, clock, cell size) and the unused
  `global_arrangement_vector` / `num_agents` fields are omitted: the graph
  logic never reads them.
-/

namespace Nepiada

/-- A grid position, the `p_pos` of an agent. -/
abbrev Pos : Type := ℤ × ℤ

/-- The agents dict passed around by the engine: an insertion-ordered map
from agent id to current position. -/
abbrev Snapshot : Type := List (ℕ × Pos)

/-- An adjacency mapping (`self.obs` / `self.comm`): an insertion-ordered
map from agent id to its neighbour list. -/
abbrev Adj : Type := List (ℕ × List ℕ)

/-- The keys of an ordered dict, in iteration order
(`[agent for agent in self.agents]`). -/
def keys {α : Type} (s : List (ℕ × α)) : List ℕ := s.map Prod.fst

/-- Squared Euclidean distance: `delta_x**2 + delta_y**2` where
`delta_x = other.p_pos[0] - x_coord` and similarly for y. -/
def distSq (p q : Pos) : ℤ := (q.1 - p.1) ^ 2 + (q.2 - p.2) ^ 2

/-- `distLt d r` embeds `np.sqrt d < r` for the integer squared distance
`d` and radius `r`: over the reals, `sqrt d < r ↔ 0 < r ∧ d < r ^ 2`. -/
def distLt (d : ℤ) (r : ℚ) : Bool := decide (0 < r) && decide ((d : ℚ) < r ^ 2)

/-- The configuration bundle fields read by `Graph.__init__`. -/
structure Config where
  dynamic_obs : Bool
  dynamic_comms : Bool
  dynamic_comms_radius : ℚ
  dynamic_comms_enforce_minimum : ℕ
  obs_radius : ℚ

/-- `{agent: all_agents for agent in agents}` with
`all_agents = [agent for agent in agents]`: the static communication
shape, mapping every agent to the full key list (itself included). -/
def fullComm (agents : Snapshot) : Adj :=
  (keys agents).map (fun a => (a, keys agents))

/-- `{agent: [] for agent in agents}`: every agent mapped to an empty
neighbour list. -/
def emptyAdj (agents : Snapshot) : Adj :=
  (keys agents).map (fun a => (a, ([] : List ℕ)))

/-- The engine state: the configuration fields copied by `__init__` plus
the agents dict and the two adjacency mappings. -/
structure Graph where
  dynamic_obs : Bool
  dynamic_comms : Bool
  dynamic_comms_radius : ℚ
  dynamic_comms_enforce_minimum : ℕ
  observation_radius : ℚ
  agents : Snapshot
  comm : Adj
  obs : Adj

/-- `Graph.__init__`: copy the configuration, store the agents, build the
communication graph (full if static, empty if dynamic) and the always
empty observation graph. -/
def Graph.init (config : Config) (agents : Snapshot) : Graph where
  dynamic_obs := config.dynamic_obs
  dynamic_comms := config.dynamic_comms
  dynamic_comms_radius := config.dynamic_comms_radius
  dynamic_comms_enforce_minimum := config.dynamic_comms_enforce_minimum
  observation_radius := config.obs_radius
  agents := agents
  comm := if !config.dynamic_comms then fullComm agents else emptyAdj agents
  obs := emptyAdj agents

/-- The inner loop of `_update_obs_graph` for one agent: every other agent
of the snapshot whose distance is strictly below `radius`, in iteration
order. -/
def obsRow (radius : ℚ) (agents : Snapshot) (a : ℕ) (pa : Pos) : List ℕ :=
  (agents.filter (fun b => b.1 != a && distLt (distSq pa b.2) radius)).map Prod.fst

/-- `_update_obs_graph`: if `dynamic_obs`, rebuild the observation graph
from the snapshot alone; otherwise leave it untouched. -/
def update_obs_graph (g : Graph) (agents : Snapshot) : Adj :=
  if g.dynamic_obs then
    agents.map (fun p => (p.1, obsRow g.observation_radius agents p.1 p.2))
  else g.obs

/-- The in-radius part of `_update_comm_graph` for one agent: the other
agents appended to `self.comm[agent_name]` inside the loop. -/
def inRadius (radius : ℚ) (agents : Snapshot) (a : ℕ) (pa : Pos) : List ℕ :=
  (agents.filter (fun b => b.1 != a && distLt (distSq pa b.2) radius)).map Prod.fst

/-- The `distances_to_agents_not_added` list of `_update_comm_graph`:
`(distance, name)` pairs of the other agents at or beyond the radius, in
iteration order (distance represented by its exact square). -/
def outPool (radius : ℚ) (agents : Snapshot) (a : ℕ) (pa : Pos) : List (ℤ × ℕ) :=
  (agents.filter (fun b => b.1 != a && !distLt (distSq pa b.2) radius)).map
    (fun b => (distSq pa b.2, b.1))

/-- The order used by `distances_to_agents_not_added.sort(key=...)`:
compare pairs by their distance component. -/
def distLe (x y : ℤ × ℕ) : Prop := x.1 ≤ y.1

instance : DecidableRel distLe := fun x y => inferInstanceAs (Decidable (x.1 ≤ y.1))

instance : IsTotal (ℤ × ℕ) distLe := ⟨fun x y => Int.le_total x.1 y.1⟩

instance : IsTrans (ℤ × ℕ) distLe := ⟨fun _ _ _ h1 h2 => le_trans h1 h2⟩

/-- One agent's row of `_update_comm_graph`: the in-radius agents, and if
they number fewer than `dynamic_comms_enforce_minimum`, the closest
out-of-radius agents (stable sort ascending by distance) appended until
the minimum is met or the pool is exhausted. -/
def commRow (g : Graph) (agents : Snapshot) (a : ℕ) (pa : Pos) : List ℕ :=
  let inR := inRadius g.dynamic_comms_radius agents a pa
  if inR.length < g.dynamic_comms_enforce_minimum then
    inR ++ ((List.insertionSort distLe (outPool g.dynamic_comms_radius agents a pa)).take
      (g.dynamic_comms_enforce_minimum - inR.length)).map Prod.snd
  else inR

/-- `_update_comm_graph`: if `dynamic_comms`, rebuild the communication
graph from the snapshot alone; otherwise leave it untouched. -/
def update_comm_graph (g : Graph) (agents : Snapshot) : Adj :=
  if g.dynamic_comms then
    agents.map (fun p => (p.1, commRow g agents p.1 p.2))
  else g.comm

/-- `Graph.update_graphs`: store the new agents dict, then recompute each
graph through its update routine.  Note that no validation of the
snapshot against the previous roster is performed. -/
def update_graphs (g : Graph) (agents : Snapshot) : Graph :=
  { g with
    agents := agents
    obs := update_obs_graph g agents
    comm := update_comm_graph g agents }

/-- `Graph.reset_graphs`: rebuild the communication graph to the full or
empty shape over the currently stored agents and empty the observation
graph; all configuration fields are untouched. -/
def reset_graphs (g : Graph) : Graph :=
  { g with
    comm := if !g.dynamic_comms then fullComm g.agents else emptyAdj g.agents
    obs := emptyAdj g.agents }

/-- Read one agent's neighbour list out of an adjacency mapping
(`self.obs[agent_name]` / `self.comm[agent_name]`), defaulting to the
empty list when the agent has no entry. -/
def entry (adj : Adj) (a : ℕ) : List ℕ := (adj.lookup a).getD []

/-- The engine states reachable from construction over a fixed roster by
updates whose snapshot key set matches the roster (the valid calls of the
spec) and by resets. -/
inductive ReachableV (config : Config) (roster : Snapshot) : Graph → Prop where
  | init : ReachableV config roster (Graph.init config roster)
  | update {g : Graph} (snap : Snapshot) : ReachableV config roster g →
      (keys snap).Perm (keys roster) → ReachableV config roster (update_graphs g snap)
  | reset {g : Graph} : ReachableV config roster g → ReachableV config roster (reset_graphs g)

/-- A static-mode configuration used for concrete instances. -/
def cfgStatic : Config := ⟨false, false, 2, 1, 2⟩

/-- A dynamic-mode configuration used for concrete instances (the radii
and minimum of Scenarios A and B of the spec). -/
def cfgDynamic : Config := ⟨true, true, 2, 1, 2⟩

/-- A two-agent roster used for concrete instances. -/
def roster2 : Snapshot := [(0, (0, 0)), (1, (1, 0))]

/-- The three-agent roster of Scenarios A and B: positions (0,0), (1,0),
(10,10). -/
def roster3 : Snapshot := [(0, (0, 0)), (1, (1, 0)), (2, (10, 10))]

/-- A snapshot over `roster2` with agent 1 missing. -/
def snapMissing : Snapshot := [(0, (0, 0))]

lemma keys_map_row {α β : Type} (f : ℕ → α → β) (s : List (ℕ × α)) :
    keys (s.map (fun p => (p.1, f p.1 p.2))) = keys s := by
  simp [keys, List.map_map, Function.comp]

lemma lookup_cons {α : Type} (a k : ℕ) (b : α) (l : List (ℕ × α)) :
    List.lookup a ((k, b) :: l) = if a = k then some b else List.lookup a l := by
  by_cases h : a = k
  · subst h; simp [List.lookup]
  · have hb : (a == k) = false := beq_false_of_ne h
    simp [List.lookup, hb, h]

lemma lookup_mem {α : Type} {a : ℕ} {b : α} {l : List (ℕ × α)} :
    List.lookup a l = some b → (a, b) ∈ l := by
  induction l with
  | nil => intro h; simp [List.lookup] at h
  | cons p t ih =>
    rcases p with ⟨k, c⟩
    rw [lookup_cons]
    split
    · rename_i heq
      intro h
      injection h with h
      subst heq; subst h
      exact List.mem_cons_self _ _
    · intro h
      exact List.mem_cons_of_mem _ (ih h)

lemma lookup_map_row {α β : Type} (f : ℕ → α → β) {s : List (ℕ × α)} {a : ℕ} {pa : α}
    (hnd : (keys s).Nodup) (ha : (a, pa) ∈ s) :
    List.lookup a (s.map (fun p => (p.1, f p.1 p.2))) = some (f a pa) := by
  induction s with
  | nil => cases ha
  | cons p t ih =>
    rcases p with ⟨k, c⟩
    simp only [List.map_cons]
    rw [lookup_cons]
    rcases List.mem_cons.mp ha with h | h
    · injection h with h1 h2
      subst h1; subst h2
      simp
    · have hk : a ≠ k := by
        intro hak
        subst hak
        have : a ∈ keys t := List.mem_map_of_mem Prod.fst h
        exact (List.nodup_cons.mp hnd).1 this
      rw [if_neg hk]
      exact ih (List.nodup_cons.mp hnd).2 h

lemma lookup_const_map {α : Type} (c : α) (l : List ℕ) (a : ℕ) :
    List.lookup a (l.map (fun x => (x, c))) = if a ∈ l then some c else none := by
  induction l with
  | nil => simp [List.lookup]
  | cons x t ih =>
    simp only [List.map_cons]
    rw [lookup_cons]
    by_cases h : a = x
    · subst h; simp
    · simp only [List.mem_cons]
      rw [if_neg h, ih]
      by_cases ht : a ∈ t
      · simp [ht]
      · simp [ht, h]

lemma entry_emptyAdj (s : Snapshot) (a : ℕ) : entry (emptyAdj s) a = [] := by
  unfold entry emptyAdj
  rw [lookup_const_map]
  split <;> rfl

lemma entry_fullComm_mem {s : Snapshot} {a : ℕ} (ha : a ∈ keys s) :
    entry (fullComm s) a = keys s := by
  unfold entry fullComm
  rw [lookup_const_map, if_pos ha]
  rfl

lemma entry_fullComm_not_mem {s : Snapshot} {a : ℕ} (ha : a ∉ keys s) :
    entry (fullComm s) a = [] := by
  unfold entry fullComm
  rw [lookup_const_map, if_neg ha]
  rfl

lemma update_obs_of_dynamic {g : Graph} (snap : Snapshot) (hd : g.dynamic_obs = true) :
    (update_graphs g snap).obs
      = snap.map (fun p => (p.1, obsRow g.observation_radius snap p.1 p.2)) := by
  simp [update_graphs, update_obs_graph, hd]

lemma update_obs_of_static {g : Graph} (snap : Snapshot) (hd : g.dynamic_obs = false) :
    (update_graphs g snap).obs = g.obs := by
  simp [update_graphs, update_obs_graph, hd]

lemma update_comm_of_dynamic {g : Graph} (snap : Snapshot) (hd : g.dynamic_comms = true) :
    (update_graphs g snap).comm
      = snap.map (fun p => (p.1, commRow g snap p.1 p.2)) := by
  simp [update_graphs, update_comm_graph, hd]

lemma update_comm_of_static {g : Graph} (snap : Snapshot) (hd : g.dynamic_comms = false) :
    (update_graphs g snap).comm = g.comm := by
  simp [update_graphs, update_comm_graph, hd]

lemma mem_filtered_names {p : ℕ × Pos → Bool} {snap : Snapshot} {b : ℕ} :
    b ∈ (snap.filter p).map Prod.fst ↔ ∃ pb, (b, pb) ∈ snap ∧ p (b, pb) = true := by
  simp only [List.mem_map, List.mem_filter]
  constructor
  · rintro ⟨⟨k, pb⟩, ⟨hm, hp⟩, rfl⟩
    exact ⟨pb, hm, hp⟩
  · rintro ⟨pb, hm, hp⟩
    exact ⟨(b, pb), ⟨hm, hp⟩, rfl⟩

lemma mem_obsRow {radius : ℚ} {snap : Snapshot} {a b : ℕ} {pa : Pos} :
    b ∈ obsRow radius snap a pa
      ↔ ∃ pb, (b, pb) ∈ snap ∧ b ≠ a ∧ distLt (distSq pa pb) radius = true := by
  unfold obsRow
  rw [mem_filtered_names]
  simp [bne_iff_ne]

lemma mem_inRadius {radius : ℚ} {snap : Snapshot} {a b : ℕ} {pa : Pos} :
    b ∈ inRadius radius snap a pa
      ↔ ∃ pb, (b, pb) ∈ snap ∧ b ≠ a ∧ distLt (distSq pa pb) radius = true := by
  unfold inRadius
  rw [mem_filtered_names]
  simp [bne_iff_ne]

lemma mem_outPool {radius : ℚ} {snap : Snapshot} {a b : ℕ} {d : ℤ} {pa : Pos} :
    (d, b) ∈ outPool radius snap a pa
      ↔ ∃ pb, (b, pb) ∈ snap ∧ b ≠ a ∧ distLt (distSq pa pb) radius = false
          ∧ d = distSq pa pb := by
  unfold outPool
  simp only [List.mem_map, List.mem_filter, Bool.and_eq_true, bne_iff_ne, Bool.not_eq_true',
    Prod.mk.injEq]
  constructor
  · rintro ⟨⟨k, pb⟩, ⟨hm, hne, hd⟩, rfl, rfl⟩
    exact ⟨pb, hm, hne, hd, rfl⟩
  · rintro ⟨pb, hm, hne, hd, rfl⟩
    exact ⟨(b, pb), ⟨hm, hne, hd⟩, rfl, rfl⟩

lemma self_not_mem_obsRow {radius : ℚ} {snap : Snapshot} {a : ℕ} {pa : Pos} :
    a ∉ obsRow radius snap a pa := by
  intro hmem
  obtain ⟨pb, _, hne, _⟩ := mem_obsRow.mp hmem
  exact hne rfl

lemma mem_commRow {g : Graph} {snap : Snapshot} {a b : ℕ} {pa : Pos}
    (hmem : b ∈ commRow g snap a pa) : b ∈ keys snap ∧ b ≠ a := by
  unfold commRow at hmem
  have hcase : b ∈ inRadius g.dynamic_comms_radius snap a pa ∨
      b ∈ ((List.insertionSort distLe (outPool g.dynamic_comms_radius snap a pa)).take
        (g.dynamic_comms_enforce_minimum
          - (inRadius g.dynamic_comms_radius snap a pa).length)).map Prod.snd := by
    by_cases hlt : (inRadius g.dynamic_comms_radius snap a pa).length
        < g.dynamic_comms_enforce_minimum
    · rw [if_pos hlt] at hmem
      exact (List.mem_append.mp hmem).imp id id
    · rw [if_neg hlt] at hmem
      exact Or.inl hmem
  rcases hcase with hin | hout
  · obtain ⟨pb, hm, hne, _⟩ := mem_inRadius.mp hin
    exact ⟨List.mem_map_of_mem Prod.fst hm, hne⟩
  · obtain ⟨⟨d, b1⟩, hdb, rfl⟩ := List.mem_map.mp hout
    have hpool : (d, b1) ∈ outPool g.dynamic_comms_radius snap a pa :=
      (List.perm_insertionSort distLe _).subset (List.mem_of_mem_take hdb)
    obtain ⟨pb, hm, hne, _, _⟩ := mem_outPool.mp hpool
    exact ⟨List.mem_map_of_mem Prod.fst hm, hne⟩

lemma self_not_mem_commRow {g : Graph} {snap : Snapshot} {a : ℕ} {pa : Pos} :
    a ∉ commRow g snap a pa := by
  intro hmem
  exact (mem_commRow hmem).2 rfl

lemma ReachableV.config_fields {config : Config} {roster : Snapshot} {g : Graph}
    (h : ReachableV config roster g) :
    g.dynamic_obs = config.dynamic_obs ∧ g.dynamic_comms = config.dynamic_comms ∧
    g.dynamic_comms_radius = config.dynamic_comms_radius ∧
    g.dynamic_comms_enforce_minimum = config.dynamic_comms_enforce_minimum ∧
    g.observation_radius = config.obs_radius := by
  induction h with
  | init => exact ⟨rfl, rfl, rfl, rfl, rfl⟩
  | update snap h1 hperm ih => exact ih
  | reset h1 ih => exact ih

lemma ReachableV.agents_perm {config : Config} {roster : Snapshot} {g : Graph}
    (h : ReachableV config roster g) : (keys g.agents).Perm (keys roster) := by
  induction h with
  | init => exact List.Perm.refl _
  | update snap h1 hperm ih => exact hperm
  | reset h1 ih => exact ih

lemma init_obs (config : Config) (roster : Snapshot) :
    (Graph.init config roster).obs = emptyAdj roster := rfl

lemma init_comm_static {config : Config} (roster : Snapshot)
    (hd : config.dynamic_comms = false) :
    (Graph.init config roster).comm = fullComm roster := by
  simp [Graph.init, hd]

lemma init_comm_dynamic {config : Config} (roster : Snapshot)
    (hd : config.dynamic_comms = true) :
    (Graph.init config roster).comm = emptyAdj roster := by
  simp [Graph.init, hd]

lemma reset_obs (g : Graph) : (reset_graphs g).obs = emptyAdj g.agents := rfl

lemma reset_comm_static {g : Graph} (hd : g.dynamic_comms = false) :
    (reset_graphs g).comm = fullComm g.agents := by
  simp [reset_graphs, hd]

lemma reset_comm_dynamic {g : Graph} (hd : g.dynamic_comms = true) :
    (reset_graphs g).comm = emptyAdj g.agents := by
  simp [reset_graphs, hd]

lemma mem_emptyAdj {s : Snapshot} {p : ℕ × List ℕ} (hp : p ∈ emptyAdj s) : p.2 = [] := by
  simp only [emptyAdj, List.mem_map] at hp
  obtain ⟨a, _, rfl⟩ := hp
  rfl

lemma ReachableV.static_comm {config : Config} {roster : Snapshot} {g : Graph}
    (h : ReachableV config roster g) (hst : config.dynamic_comms = false) :
    ∃ s : Snapshot, (keys s).Perm (keys roster) ∧ g.comm = fullComm s := by
  induction h with
  | init => exact ⟨roster, List.Perm.refl _, init_comm_static roster hst⟩
  | @update g1 snap h1 hperm ih =>
    obtain ⟨s, hs, hc⟩ := ih
    have hgc : g1.dynamic_comms = false := (h1.config_fields).2.1.trans hst
    exact ⟨s, hs, (update_comm_of_static snap hgc).trans hc⟩
  | @reset g1 h1 ih =>
    have hgc : g1.dynamic_comms = false := (h1.config_fields).2.1.trans hst
    exact ⟨g1.agents, h1.agents_perm, reset_comm_static hgc⟩

lemma ReachableV.obs_no_self {config : Config} {roster : Snapshot} {g : Graph}
    (h : ReachableV config roster g) : ∀ p ∈ g.obs, p.1 ∉ p.2 := by
  induction h with
  | init =>
    intro p hp
    rw [init_obs] at hp
    rw [mem_emptyAdj hp]
    exact List.not_mem_nil _
  | @update g1 snap h1 hperm ih =>
    intro p hp
    cases hd : g1.dynamic_obs with
    | true =>
      rw [update_obs_of_dynamic snap hd] at hp
      obtain ⟨q, _, rfl⟩ := List.mem_map.mp hp
      exact self_not_mem_obsRow
    | false =>
      rw [update_obs_of_static snap hd] at hp
      exact ih p hp
  | @reset g1 h1 ih =>
    intro p hp
    rw [reset_obs] at hp
    rw [mem_emptyAdj hp]
    exact List.not_mem_nil _

lemma ReachableV.comm_no_self {config : Config} {roster : Snapshot} {g : Graph}
    (h : ReachableV config roster g) (hdyn : config.dynamic_comms = true) :
    ∀ p ∈ g.comm, p.1 ∉ p.2 := by
  induction h with
  | init =>
    intro p hp
    rw [init_comm_dynamic roster hdyn] at hp
    rw [mem_emptyAdj hp]
    exact List.not_mem_nil _
  | @update g1 snap h1 hperm ih =>
    intro p hp
    have hgc : g1.dynamic_comms = true := (h1.config_fields).2.1.trans hdyn
    rw [update_comm_of_dynamic snap hgc] at hp
    obtain ⟨q, _, rfl⟩ := List.mem_map.mp hp
    exact self_not_mem_commRow
  | @reset g1 h1 ih =>
    intro p hp
    have hgc : g1.dynamic_comms = true := (h1.config_fields).2.1.trans hdyn
    rw [reset_comm_dynamic hgc] at hp
    rw [mem_emptyAdj hp]
    exact List.not_mem_nil _

lemma lookup_map_row_opt {α β : Type} (f : ℕ → α → β) (s : List (ℕ × α)) (a : ℕ) :
    List.lookup a (s.map (fun p => (p.1, f p.1 p.2))) = Option.map (f a) (List.lookup a s) := by
  induction s with
  | nil => rfl
  | cons p t ih =>
    rcases p with ⟨k, v⟩
    simp only [List.map_cons]
    rw [lookup_cons, lookup_cons]
    by_cases h : a = k
    · subst h; simp
    · simp [h, ih]

lemma distLt_mono {d : ℤ} {r1 r2 : ℚ} (hr : r1 ≤ r2) (h : distLt d r1 = true) :
    distLt d r2 = true := by
  unfold distLt at h ⊢
  simp only [Bool.and_eq_true, decide_eq_true_eq] at h ⊢
  obtain ⟨hpos, hlt⟩ := h
  exact ⟨lt_of_lt_of_le hpos hr, lt_of_lt_of_le hlt (pow_le_pow_left₀ (le_of_lt hpos) hr 2)⟩

lemma obsRow_mono {r1 r2 : ℚ} (hr : r1 ≤ r2) {snap : Snapshot} {a b : ℕ} {pa : Pos}
    (h : b ∈ obsRow r1 snap a pa) : b ∈ obsRow r2 snap a pa := by
  obtain ⟨pb, hm, hne, hd⟩ := mem_obsRow.mp h
  exact mem_obsRow.mpr ⟨pb, hm, hne, distLt_mono hr hd⟩

/-- C9: calling `reset_graphs` twice in a row from any engine state yields
exactly the same engine state as calling it once: `reset_graphs` only
rewrites `comm` and `obs` from the stored agents and flags, which it does
not change, so it is idempotent. -/
theorem C9_reset_idempotent (g : Graph) :
    reset_graphs (reset_graphs g) = reset_graphs g := rfl

/-- C7: if a graph's dynamic flag is false, `update_graphs` leaves that
graph's adjacency mapping exactly as it was before the call, for every
position snapshot. -/
theorem C7_static_graph_untouched (g : Graph) (snap : Snapshot) :
    (g.dynamic_obs = false → (update_graphs g snap).obs = g.obs) ∧
    (g.dynamic_comms = false → (update_graphs g snap).comm = g.comm) :=
  ⟨update_obs_of_static snap, update_comm_of_static snap⟩

/-- Witness for C7 at a concrete static-mode engine and snapshot. -/
theorem C7_witness :
    (update_graphs (Graph.init cfgStatic roster2) snapMissing).obs
        = (Graph.init cfgStatic roster2).obs ∧
    (update_graphs (Graph.init cfgStatic roster2) snapMissing).comm
        = (Graph.init cfgStatic roster2).comm :=
  ⟨(C7_static_graph_untouched (Graph.init cfgStatic roster2) snapMissing).1 rfl,
   (C7_static_graph_untouched (Graph.init cfgStatic roster2) snapMissing).2 rfl⟩

/-- C8: with dynamic observation on, for a fixed snapshot and radii
`r1 ≤ r2`, every observation edge produced by an update at radius `r1` is
also produced by the update at radius `r2`. -/
theorem C8_radius_monotone (g : Graph) (snap : Snapshot) (r1 r2 : ℚ) (hr : r1 ≤ r2)
    (hdyn : g.dynamic_obs = true) (a b : ℕ)
    (hmem : b ∈ entry (update_graphs { g with observation_radius := r1 } snap).obs a) :
    b ∈ entry (update_graphs { g with observation_radius := r2 } snap).obs a := by
  have h1 : ({ g with observation_radius := r1 } : Graph).dynamic_obs = true := hdyn
  have h2 : ({ g with observation_radius := r2 } : Graph).dynamic_obs = true := hdyn
  rw [update_obs_of_dynamic snap h1] at hmem
  rw [update_obs_of_dynamic snap h2]
  unfold entry at hmem ⊢
  rw [lookup_map_row_opt] at hmem ⊢
  cases hl : List.lookup a snap with
  | none =>
    rw [hl] at hmem
    simp at hmem
  | some pa =>
    rw [hl] at hmem
    simp only [Option.map_some', Option.getD_some] at hmem ⊢
    exact obsRow_mono hr hmem

/-- Witness for C8: the (0,1) edge at radius 2 over the Scenario A roster
is preserved when the radius grows to 3. -/
theorem C8_witness :
    (1 : ℕ) ∈ entry (update_graphs
      { Graph.init cfgDynamic roster3 with observation_radius := 3 } roster3).obs 0 :=
  C8_radius_monotone (Graph.init cfgDynamic roster3) roster3 2 3 (by norm_num) rfl 0 1
    (by decide)

/-- C1 counterexample: `update_graphs` called with a snapshot whose key
set is missing agent 1 of the two-agent roster does not fail (the code
performs no validation) and does change the observation graph, refuting
"the call fails with an InvalidInput error and both graphs are left
unchanged". -/
theorem C1_counterexample :
    (update_graphs (Graph.init cfgDynamic roster2) snapMissing).obs
      ≠ (Graph.init cfgDynamic roster2).obs := by decide

/-- C1 (amended): `update_graphs` performs no validation of the snapshot
against the roster: every call succeeds, replaces the stored roster by
the snapshot, rebuilds each dynamic graph keyed by the snapshot's agents
(even when the key sets differ) and leaves each static graph unchanged. -/
theorem C1_update_never_fails (g : Graph) (snap : Snapshot) :
    (update_graphs g snap).agents = snap ∧
    (g.dynamic_obs = true → keys (update_graphs g snap).obs = keys snap) ∧
    (g.dynamic_comms = true → keys (update_graphs g snap).comm = keys snap) ∧
    (g.dynamic_obs = false → (update_graphs g snap).obs = g.obs) ∧
    (g.dynamic_comms = false → (update_graphs g snap).comm = g.comm) := by
  refine ⟨rfl, ?_, ?_, update_obs_of_static snap, update_comm_of_static snap⟩
  · intro hd
    rw [update_obs_of_dynamic snap hd]
    exact keys_map_row _ _
  · intro hd
    rw [update_comm_of_dynamic snap hd]
    exact keys_map_row _ _

/-- Witness for C1 (amended) at a concrete dynamic engine and a snapshot
missing an agent. -/
theorem C1_witness :
    (update_graphs (Graph.init cfgDynamic roster2) snapMissing).agents = snapMissing ∧
    keys (update_graphs (Graph.init cfgDynamic roster2) snapMissing).obs
      = keys snapMissing :=
  ⟨(C1_update_never_fails (Graph.init cfgDynamic roster2) snapMissing).1,
   (C1_update_never_fails (Graph.init cfgDynamic roster2) snapMissing).2.1 rfl⟩

/-- C2 counterexample: in static mode at construction over the two-agent
roster, agent 0's communication entry is not "all agent ids minus {0}":
it contains agent 0 itself. -/
theorem C2_counterexample :
    ¬ (∀ b : ℕ, b ∈ entry (Graph.init cfgStatic roster2).comm 0
        ↔ b ∈ keys roster2 ∧ b ≠ 0) := by
  intro hall
  have h0 : (0 : ℕ) ∈ entry (Graph.init cfgStatic roster2).comm 0 := by decide
  exact ((hall 0).mp h0).2 rfl

/-- C2 (amended): if `dynamic_comms` is false then in every reachable
state (after construction, valid updates and resets) every rostered
agent's communication set equals the set of all agent ids, the agent
itself included, regardless of positions. -/
theorem C2_static_comm_full (config : Config) (roster : Snapshot) (g : Graph)
    (hst : config.dynamic_comms = false) (h : ReachableV config roster g)
    (a : ℕ) (ha : a ∈ keys roster) (b : ℕ) :
    b ∈ entry g.comm a ↔ b ∈ keys roster := by
  obtain ⟨s, hs, hc⟩ := h.static_comm hst
  rw [hc, entry_fullComm_mem (hs.mem_iff.mpr ha)]
  exact hs.mem_iff

/-- Witness for C2 (amended) at the construction state of a static
two-agent engine. -/
theorem C2_witness :
    ((1 : ℕ) ∈ entry (Graph.init cfgStatic roster2).comm 0 ↔ (1 : ℕ) ∈ keys roster2) :=
  C2_static_comm_full cfgStatic roster2 (Graph.init cfgStatic roster2) rfl
    ReachableV.init 0 (by decide) 1

/-- C3 counterexample: the no-self-loop property fails in static
communication mode: at construction over the two-agent roster, agent 0
is a member of its own communication set. -/
theorem C3_counterexample :
    ¬ (∀ a : ℕ, a ∈ keys roster2 → a ∉ entry (Graph.init cfgStatic roster2).comm a) := by
  intro hall
  exact hall 0 (by decide) (by decide)

/-- C3 (amended): in every reachable state no agent is a member of its
own observation set, and no agent is a member of its own communication
set when `dynamic_comms` is true; when `dynamic_comms` is false every
rostered agent IS a member of its own communication set. -/
theorem C3_no_self_loops (config : Config) (roster : Snapshot) (g : Graph)
    (h : ReachableV config roster g) (a : ℕ) :
    a ∉ entry g.obs a ∧
    (config.dynamic_comms = true → a ∉ entry g.comm a) ∧
    (config.dynamic_comms = false → a ∈ keys roster → a ∈ entry g.comm a) := by
  refine ⟨?_, ?_, ?_⟩
  · unfold entry
    cases hl : List.lookup a g.obs with
    | none => simp
    | some row =>
      simp only [Option.getD_some]
      exact h.obs_no_self (a, row) (lookup_mem hl)
  · intro hdyn
    unfold entry
    cases hl : List.lookup a g.comm with
    | none => simp
    | some row =>
      simp only [Option.getD_some]
      exact h.comm_no_self hdyn (a, row) (lookup_mem hl)
  · intro hst ha
    obtain ⟨s, hs, hc⟩ := h.static_comm hst
    rw [hc, entry_fullComm_mem (hs.mem_iff.mpr ha)]
    exact hs.mem_iff.mpr ha

/-- Witness for C3 (amended) at the construction state of a dynamic
two-agent engine. -/
theorem C3_witness :
    (0 : ℕ) ∉ entry (Graph.init cfgDynamic roster2).obs 0 :=
  (C3_no_self_loops cfgDynamic roster2 (Graph.init cfgDynamic roster2)
    ReachableV.init 0).1

/-- C6 counterexample: after reset of a static two-agent engine, agent
0's communication entry is not the self-loop-free complete-graph row
{1}: it contains agent 0 itself. -/
theorem C6_counterexample :
    ¬ (∀ b : ℕ, b ∈ entry (reset_graphs (Graph.init cfgStatic roster2)).comm 0
        ↔ b ∈ keys roster2 ∧ b ≠ 0) := by
  intro hall
  have h0 : (0 : ℕ) ∈ entry (reset_graphs (Graph.init cfgStatic roster2)).comm 0 := by
    decide
  exact ((hall 0).mp h0).2 rfl

/-- C6 (amended): after a reset from any reachable state, every
communication entry equals (as a set) its construction-time entry (every
agent mapped to the full roster, itself included, if static; empty if
dynamic), every observation entry is empty, and all configuration fields
are unchanged. -/
theorem C6_reset_restores_init_shape (config : Config) (roster : Snapshot) (g : Graph)
    (h : ReachableV config roster g) :
    (∀ a b : ℕ, b ∈ entry (reset_graphs g).comm a
        ↔ b ∈ entry (Graph.init config roster).comm a) ∧
    (∀ a : ℕ, entry (reset_graphs g).obs a = []) ∧
    (reset_graphs g).dynamic_obs = g.dynamic_obs ∧
    (reset_graphs g).dynamic_comms = g.dynamic_comms ∧
    (reset_graphs g).dynamic_comms_radius = g.dynamic_comms_radius ∧
    (reset_graphs g).dynamic_comms_enforce_minimum = g.dynamic_comms_enforce_minimum ∧
    (reset_graphs g).observation_radius = g.observation_radius := by
  refine ⟨?_, ?_, rfl, rfl, rfl, rfl, rfl⟩
  · intro a b
    cases hst : config.dynamic_comms with
    | false =>
      have hgc : g.dynamic_comms = false := (h.config_fields).2.1.trans hst
      rw [reset_comm_static hgc, init_comm_static roster hst]
      have hperm := h.agents_perm
      by_cases ha : a ∈ keys g.agents
      · rw [entry_fullComm_mem ha, entry_fullComm_mem (hperm.mem_iff.mp ha)]
        exact hperm.mem_iff
      · rw [entry_fullComm_not_mem ha,
          entry_fullComm_not_mem (fun hx => ha (hperm.mem_iff.mpr hx))]
    | true =>
      have hgc : g.dynamic_comms = true := (h.config_fields).2.1.trans hst
      rw [reset_comm_dynamic hgc, init_comm_dynamic roster hst]
      rw [entry_emptyAdj, entry_emptyAdj]
  · intro a
    rw [reset_obs, entry_emptyAdj]

/-- Witness for C6 (amended) at the construction state of a static
two-agent engine. -/
theorem C6_witness :
    ((1 : ℕ) ∈ entry (reset_graphs (Graph.init cfgStatic roster2)).comm 0
      ↔ (1 : ℕ) ∈ entry (Graph.init cfgStatic roster2).comm 0) ∧
    entry (reset_graphs (Graph.init cfgStatic roster2)).obs 0 = [] :=
  ⟨(C6_reset_restores_init_shape cfgStatic roster2 (Graph.init cfgStatic roster2)
      ReachableV.init).1 0 1,
   (C6_reset_restores_init_shape cfgStatic roster2 (Graph.init cfgStatic roster2)
      ReachableV.init).2.1 0⟩

lemma keys_nodup_unique {s : Snapshot} (hnd : (keys s).Nodup) {b : ℕ} {p q : Pos}
    (hp : (b, p) ∈ s) (hq : (b, q) ∈ s) : p = q := by
  induction s with
  | nil => cases hp
  | cons x t ih =>
    simp only [keys, List.map_cons, List.nodup_cons] at hnd
    rcases List.mem_cons.mp hp with h1 | h1
    · subst h1
      rcases List.mem_cons.mp hq with h2 | h2
      · injection h2 with h2a h2b
        exact h2b.symm
      · exact absurd (List.mem_map_of_mem Prod.fst h2) hnd.1
    · rcases List.mem_cons.mp hq with h2 | h2
      · subst h2
        exact absurd (List.mem_map_of_mem Prod.fst h1) hnd.1
      · exact ih hnd.2 h1 h2

lemma filter_split_length {α : Type} (p q : α → Bool) (l : List α) :
    (l.filter (fun x => p x && q x)).length + (l.filter (fun x => p x && !q x)).length
      = (l.filter p).length := by
  induction l with
  | nil => rfl
  | cons x t ih =>
    by_cases hp : p x
    · by_cases hq : q x <;> simp [List.filter_cons, hp, hq] <;> omega
    · simp [List.filter_cons, hp]
      exact ih

lemma filter_ne_length {snap : Snapshot} {a : ℕ} {pa : Pos}
    (hnd : (keys snap).Nodup) (ha : (a, pa) ∈ snap) :
    (snap.filter (fun b => b.1 != a)).length = snap.length - 1 := by
  induction snap with
  | nil => cases ha
  | cons x t ih =>
    simp only [keys, List.map_cons, List.nodup_cons] at hnd
    rcases List.mem_cons.mp ha with h1 | h1
    · subst h1
      rw [List.filter_cons]
      have hself : (((a, pa).1 != a) = true) = False := by simp
      rw [if_neg (by simp)]
      rw [List.filter_eq_self.mpr ?hall]
      case hall =>
        intro y hy
        refine bne_iff_ne.mpr fun he => hnd.1 ?_
        have hmem : y.1 ∈ List.map Prod.fst t := List.mem_map_of_mem Prod.fst hy
        rwa [he] at hmem
      simp
    · have hxa : (x.1 != a) = true := by
        have hmem : a ∈ List.map Prod.fst t := List.mem_map_of_mem Prod.fst h1
        refine bne_iff_ne.mpr fun he => hnd.1 ?_
        rw [he]
        exact hmem
      rw [List.filter_cons, if_pos hxa]
      have hlen : 1 ≤ t.length := List.length_pos.mpr (List.ne_nil_of_mem h1)
      simp only [List.length_cons]
      rw [ih hnd.2 h1]
      omega

lemma inRadius_outPool_length (radius : ℚ) {snap : Snapshot} {a : ℕ} {pa : Pos}
    (hnd : (keys snap).Nodup) (ha : (a, pa) ∈ snap) :
    (inRadius radius snap a pa).length + (outPool radius snap a pa).length
      = snap.length - 1 := by
  unfold inRadius outPool
  rw [List.length_map, List.length_map, ← filter_ne_length hnd ha]
  exact filter_split_length (fun b => b.1 != a) (fun b => distLt (distSq pa b.2) radius) snap

lemma entry_update_comm (g : Graph) {snap : Snapshot} (hdyn : g.dynamic_comms = true)
    (hnd : (keys snap).Nodup) {a : ℕ} {pa : Pos} (ha : (a, pa) ∈ snap) :
    entry (update_graphs g snap).comm a = commRow g snap a pa := by
  rw [update_comm_of_dynamic snap hdyn]
  unfold entry
  rw [lookup_map_row (fun x px => commRow g snap x px) hnd ha]
  rfl

lemma commRow_length (g : Graph) {snap : Snapshot} {a : ℕ} {pa : Pos}
    (hnd : (keys snap).Nodup) (ha : (a, pa) ∈ snap) :
    (commRow g snap a pa).length
      = max (inRadius g.dynamic_comms_radius snap a pa).length
          (min g.dynamic_comms_enforce_minimum (snap.length - 1)) := by
  have hsum := inRadius_outPool_length g.dynamic_comms_radius hnd ha
  unfold commRow
  by_cases hlt : (inRadius g.dynamic_comms_radius snap a pa).length
      < g.dynamic_comms_enforce_minimum
  · rw [if_pos hlt]
    rw [List.length_append, List.length_map, List.length_take,
      List.length_insertionSort]
    omega
  · rw [if_neg hlt]
    omega

lemma mem_outPool_names {radius : ℚ} {snap : Snapshot} {a b : ℕ} {pa : Pos} :
    b ∈ (outPool radius snap a pa).map Prod.snd
      ↔ ∃ pb, (b, pb) ∈ snap ∧ b ≠ a ∧ distLt (distSq pa pb) radius = false := by
  constructor
  · intro h
    obtain ⟨⟨d, b1⟩, hdb, rfl⟩ := List.mem_map.mp h
    obtain ⟨pb, hm, hne, hd, _⟩ := mem_outPool.mp hdb
    exact ⟨pb, hm, hne, hd⟩
  · rintro ⟨pb, hm, hne, hd⟩
    exact List.mem_map.mpr ⟨(distSq pa pb, b), mem_outPool.mpr ⟨pb, hm, hne, hd, rfl⟩, rfl⟩

lemma outPool_names_eq {radius : ℚ} {snap : Snapshot} {a : ℕ} {pa : Pos} :
    (outPool radius snap a pa).map Prod.snd
      = (snap.filter (fun b => b.1 != a && !distLt (distSq pa b.2) radius)).map Prod.fst := by
  unfold outPool
  rw [List.map_map]
  rfl

lemma commRow_nodup (g : Graph) {snap : Snapshot} {a : ℕ} {pa : Pos}
    (hnd : (keys snap).Nodup) : (commRow g snap a pa).Nodup := by
  have hin : (inRadius g.dynamic_comms_radius snap a pa).Nodup := by
    unfold inRadius
    exact ((List.filter_sublist snap).map Prod.fst).nodup hnd
  unfold commRow
  by_cases hlt : (inRadius g.dynamic_comms_radius snap a pa).length
      < g.dynamic_comms_enforce_minimum
  swap
  · rw [if_neg hlt]; exact hin
  rw [if_pos hlt]
  have hpoolnames : ((outPool g.dynamic_comms_radius snap a pa).map Prod.snd).Nodup := by
    rw [outPool_names_eq]
    exact ((List.filter_sublist snap).map Prod.fst).nodup hnd
  have hsortnames : ((List.insertionSort distLe
      (outPool g.dynamic_comms_radius snap a pa)).map Prod.snd).Nodup :=
    (((List.perm_insertionSort distLe _).map Prod.snd).nodup_iff).mpr hpoolnames
  have htake : (((List.insertionSort distLe
      (outPool g.dynamic_comms_radius snap a pa)).take
        (g.dynamic_comms_enforce_minimum
          - (inRadius g.dynamic_comms_radius snap a pa).length)).map Prod.snd).Nodup :=
    ((List.take_sublist _ _).map Prod.snd).nodup hsortnames
  rw [List.nodup_append]
  refine ⟨hin, htake, ?_⟩
  intro b hbin hbtake
  obtain ⟨pb, hm, hne, hdt⟩ := mem_inRadius.mp hbin
  have hbpool : b ∈ (outPool g.dynamic_comms_radius snap a pa).map Prod.snd := by
    have hsub := (List.take_sublist
      (g.dynamic_comms_enforce_minimum
        - (inRadius g.dynamic_comms_radius snap a pa).length)
      (List.insertionSort distLe (outPool g.dynamic_comms_radius snap a pa))).map Prod.snd
    exact ((List.perm_insertionSort distLe _).map Prod.snd).mem_iff.mp
      (hsub.subset hbtake)
  obtain ⟨pb2, hm2, _, hdf⟩ := mem_outPool_names.mp hbpool
  rw [keys_nodup_unique hnd hm hm2] at hdt
  rw [hdt] at hdf
  cases hdf

/-- C5: with dynamic observation on, after an update with snapshot `snap`
(distinct agent ids, as with a Python dict), for distinct agents A, B of
the snapshot, B is in A's observation entry iff the Euclidean distance of
their snapshot positions is strictly below `observation_radius`; moreover
the resulting observation graph depends only on the snapshot and the
radius, never on the pre-update graphs (no stale edge persists). -/
theorem C5_dynamic_obs_characterization (g : Graph) (snap : Snapshot)
    (hdyn : g.dynamic_obs = true) (hnd : (keys snap).Nodup)
    (a b : ℕ) (pa pb : Pos) (ha : (a, pa) ∈ snap) (hb : (b, pb) ∈ snap) (hab : a ≠ b) :
    (b ∈ entry (update_graphs g snap).obs a
      ↔ distLt (distSq pa pb) g.observation_radius = true) ∧
    (∀ g2 : Graph, g2.dynamic_obs = true →
      g2.observation_radius = g.observation_radius →
      (update_graphs g2 snap).obs = (update_graphs g snap).obs) := by
  constructor
  · rw [update_obs_of_dynamic snap hdyn]
    unfold entry
    rw [lookup_map_row (fun x px => obsRow g.observation_radius snap x px) hnd ha]
    simp only [Option.getD_some]
    constructor
    · intro hmem
      obtain ⟨pb2, hb2, hne, hd⟩ := mem_obsRow.mp hmem
      rwa [keys_nodup_unique hnd hb2 hb] at hd
    · intro hd
      exact mem_obsRow.mpr ⟨pb, hb, Ne.symm hab, hd⟩
  · intro g2 h2 hrad
    rw [update_obs_of_dynamic snap h2, update_obs_of_dynamic snap hdyn, hrad]

/-- Witness for C5 at Scenario A: agents 0 and 1 at distance 1 with
radius 2 over the three-agent roster. -/
theorem C5_witness :
    ((1 : ℕ) ∈ entry (update_graphs (Graph.init cfgDynamic roster3) roster3).obs 0
      ↔ distLt (distSq (0, 0) (1, 0))
          (Graph.init cfgDynamic roster3).observation_radius = true) :=
  (C5_dynamic_obs_characterization (Graph.init cfgDynamic roster3) roster3 rfl
    (by decide) 0 1 (0, 0) (1, 0) (by decide) (by decide) (by decide)).1

/-- C4: with dynamic communication on, after an update over a snapshot
with distinct ids: (i) whenever the number of other agents is at least
`dynamic_comms_enforce_minimum`, agent A's communication entry has at
least that many members; (ii) if the other agents number fewer than the
minimum, the entry contains exactly all other agents; (iii) the entry is
the in-radius agents followed by an `extra` part drawn from the
out-of-radius pool such that every appended agent is at most as far as
every pool agent left out. -/
theorem C4_minimum_enforcement (g : Graph) (snap : Snapshot)
    (hdyn : g.dynamic_comms = true) (hnd : (keys snap).Nodup)
    (a : ℕ) (pa : Pos) (ha : (a, pa) ∈ snap) :
    (g.dynamic_comms_enforce_minimum ≤ snap.length - 1 →
      g.dynamic_comms_enforce_minimum
        ≤ (entry (update_graphs g snap).comm a).length) ∧
    (snap.length - 1 < g.dynamic_comms_enforce_minimum →
      ∀ b : ℕ, b ∈ entry (update_graphs g snap).comm a ↔ b ∈ keys snap ∧ b ≠ a) ∧
    (∃ extra rest : List (ℤ × ℕ),
      (outPool g.dynamic_comms_radius snap a pa).Perm (extra ++ rest) ∧
      entry (update_graphs g snap).comm a
        = inRadius g.dynamic_comms_radius snap a pa ++ extra.map Prod.snd ∧
      ∀ x ∈ extra, ∀ y ∈ rest, x.1 ≤ y.1) := by
  have hrow := entry_update_comm g hdyn hnd ha
  have hsum := inRadius_outPool_length g.dynamic_comms_radius hnd ha
  refine ⟨?_, ?_, ?_⟩
  · intro hmin
    rw [hrow, commRow_length g hnd ha]
    omega
  · intro hless b
    have hk : (inRadius g.dynamic_comms_radius snap a pa).length
        < g.dynamic_comms_enforce_minimum := by omega
    constructor
    · intro hmem
      rw [hrow] at hmem
      exact mem_commRow hmem
    · rintro ⟨hbk, hba⟩
      obtain ⟨⟨b1, pb⟩, hbp, rfl⟩ := List.mem_map.mp hbk
      rw [hrow]
      unfold commRow
      rw [if_pos hk]
      by_cases hd : distLt (distSq pa pb) g.dynamic_comms_radius = true
      · exact List.mem_append_left _ (mem_inRadius.mpr ⟨pb, hbp, hba, hd⟩)
      · refine List.mem_append_right _ ?_
        have hall : (List.insertionSort distLe
            (outPool g.dynamic_comms_radius snap a pa)).take
              (g.dynamic_comms_enforce_minimum
                - (inRadius g.dynamic_comms_radius snap a pa).length)
            = List.insertionSort distLe (outPool g.dynamic_comms_radius snap a pa) := by
          refine List.take_of_length_le ?_
          rw [List.length_insertionSort]
          omega
        rw [hall]
        refine ((List.perm_insertionSort distLe _).map Prod.snd).mem_iff.mpr ?_
        exact mem_outPool_names.mpr ⟨pb, hbp, hba, Bool.not_eq_true _ ▸ hd⟩
  · by_cases hk : (inRadius g.dynamic_comms_radius snap a pa).length
        < g.dynamic_comms_enforce_minimum
    · refine ⟨(List.insertionSort distLe (outPool g.dynamic_comms_radius snap a pa)).take
          (g.dynamic_comms_enforce_minimum
            - (inRadius g.dynamic_comms_radius snap a pa).length),
        (List.insertionSort distLe (outPool g.dynamic_comms_radius snap a pa)).drop
          (g.dynamic_comms_enforce_minimum
            - (inRadius g.dynamic_comms_radius snap a pa).length), ?_, ?_, ?_⟩
      · rw [List.take_append_drop]
        exact (List.perm_insertionSort distLe _).symm
      · rw [hrow]
        unfold commRow
        rw [if_pos hk]
      · have hsorted : (List.insertionSort distLe
            (outPool g.dynamic_comms_radius snap a pa)).Pairwise distLe := by
          have := List.sorted_insertionSort distLe
            (outPool g.dynamic_comms_radius snap a pa)
          exact this
        have hsplit := hsorted
        rw [← List.take_append_drop
          (g.dynamic_comms_enforce_minimum
            - (inRadius g.dynamic_comms_radius snap a pa).length)
          (List.insertionSort distLe (outPool g.dynamic_comms_radius snap a pa))]
          at hsplit
        exact (List.pairwise_append.mp hsplit).2.2
    · refine ⟨[], outPool g.dynamic_comms_radius snap a pa, ?_, ?_, ?_⟩
      · simp
      · rw [hrow]
        unfold commRow
        rw [if_neg hk]
        simp
      · intro x hx
        cases hx

/-- Witness for C4 at Scenario B: the three-agent roster with
communication radius 2 and minimum 1, applied to agent 2 which has no
in-radius peer. -/
theorem C4_witness :
    (Graph.init cfgDynamic roster3).dynamic_comms_enforce_minimum
      ≤ (entry (update_graphs (Graph.init cfgDynamic roster3) roster3).comm 2).length :=
  (C4_minimum_enforcement (Graph.init cfgDynamic roster3) roster3 rfl (by decide)
    2 (10, 10) (by decide)).1 (by decide)

/-- C10: with dynamic communication on, after an update over a snapshot
with distinct ids, agent A's communication entry has no duplicates, every
member is a snapshot agent other than A, and its length equals
max(k, min(`dynamic_comms_enforce_minimum`, N − 1)) where k is the number
of other agents strictly within `dynamic_comms_radius` of A and N the
number of snapshot agents. -/
theorem C10_comm_row_shape (g : Graph) (snap : Snapshot)
    (hdyn : g.dynamic_comms = true) (hnd : (keys snap).Nodup)
    (a : ℕ) (pa : Pos) (ha : (a, pa) ∈ snap) :
    (entry (update_graphs g snap).comm a).Nodup ∧
    (∀ b ∈ entry (update_graphs g snap).comm a, b ∈ keys snap ∧ b ≠ a) ∧
    (entry (update_graphs g snap).comm a).length
      = max (inRadius g.dynamic_comms_radius snap a pa).length
          (min g.dynamic_comms_enforce_minimum (snap.length - 1)) := by
  have hrow := entry_update_comm g hdyn hnd ha
  refine ⟨?_, ?_, ?_⟩
  · rw [hrow]
    exact commRow_nodup g hnd
  · intro b hmem
    rw [hrow] at hmem
    exact mem_commRow hmem
  · rw [hrow]
    exact commRow_length g hnd ha

/-- Witness for C10 at Scenario B, for agent 2 of the three-agent
roster. -/
theorem C10_witness :
    (entry (update_graphs (Graph.init cfgDynamic roster3) roster3).comm 2).Nodup ∧
    (entry (update_graphs (Graph.init cfgDynamic roster3) roster3).comm 2).length
      = max (inRadius (Graph.init cfgDynamic roster3).dynamic_comms_radius
            roster3 2 (10, 10)).length
          (min (Graph.init cfgDynamic roster3).dynamic_comms_enforce_minimum
            (roster3.length - 1)) :=
  ⟨(C10_comm_row_shape (Graph.init cfgDynamic roster3) roster3 rfl (by decide)
      2 (10, 10) (by decide)).1,
   (C10_comm_row_shape (Graph.init cfgDynamic roster3) roster3 rfl (by decide)
      2 (10, 10) (by decide)).2.2⟩

end Nepiada
